import Mathlib

/-!
Verification development for the rcutils logging core and its helpers.

C strings are modelled as `Option (List Char)`: `none` is the NULL pointer,
`some s` the character sequence of a non-NULL, terminated string.  Severities
are modelled as `Nat`, following the values of `enum RCUTILS_LOG_SEVERITY`
in `include/rcutils/logging.h` (DEBUG = 0 .. FATAL = 4, UNSET = 100).
-/

namespace Rcutils

/-- Severity value `RCUTILS_LOG_SEVERITY_DEBUG` from `logging.h`. -/
def RCUTILS_LOG_SEVERITY_DEBUG : Nat := 0

/-- Severity value `RCUTILS_LOG_SEVERITY_INFO` from `logging.h`. -/
def RCUTILS_LOG_SEVERITY_INFO : Nat := 1

/-- Severity value `RCUTILS_LOG_SEVERITY_WARN` from `logging.h`. -/
def RCUTILS_LOG_SEVERITY_WARN : Nat := 2

/-- Severity value `RCUTILS_LOG_SEVERITY_ERROR` from `logging.h`. -/
def RCUTILS_LOG_SEVERITY_ERROR : Nat := 3

/-- Severity value `RCUTILS_LOG_SEVERITY_FATAL` from `logging.h`. -/
def RCUTILS_LOG_SEVERITY_FATAL : Nat := 4

/-- Severity value `RCUTILS_LOG_SEVERITY_UNSET` from `logging.h`. -/
def RCUTILS_LOG_SEVERITY_UNSET : Nat := 100

/-- Index of the first occurrence of `d` in a character list, if any.
This is the loop body of `rcutils_findn` in `src/find.c`: scan from the
front, return the first index holding `d`. -/
def findFirstIndex (d : Char) : List Char → Option Nat
  | [] => none
  | c :: rest => if c = d then some 0 else (findFirstIndex d rest).map (· + 1)

/-- Index of the last occurrence of `d` in a character list, if any.
This is the loop of `rcutils_find_lastn` in `src/find.c`: every match
overwrites `last_found`, so the final value is the last matching index. -/
def findLastIndex (d : Char) : List Char → Option Nat
  | [] => none
  | c :: rest =>
    match findLastIndex d rest with
    | some r => some (r + 1)
    | none => if c = d then some 0 else none

/-- Embedding of `rcutils_findn` from `src/find.c`: 0 for a NULL string,
otherwise the first index `i < string_length` with `str[i] = delimiter`,
or `string_length` when there is none. -/
def rcutils_findn (str : Option (List Char)) (delimiter : Char)
    (string_length : Nat) : Nat :=
  match str with
  | none => 0
  | some s => (findFirstIndex delimiter (s.take string_length)).getD string_length

/-- Embedding of `rcutils_find_lastn` from `src/find.c`: 0 for a NULL string,
otherwise the last index `i < string_length` with `str[i] = delimiter`,
or `string_length` when there is none. -/
def rcutils_find_lastn (str : Option (List Char)) (delimiter : Char)
    (string_length : Nat) : Nat :=
  match str with
  | none => 0
  | some s => (findLastIndex delimiter (s.take string_length)).getD string_length

/-- Embedding of `rcutils_find` from `src/find.c`: 0 for NULL or empty
strings, otherwise `rcutils_findn` over the whole string. -/
def rcutils_find (str : Option (List Char)) (delimiter : Char) : Nat :=
  match str with
  | none => 0
  | some s => if s.length = 0 then 0 else rcutils_findn (some s) delimiter s.length

/-- Embedding of `rcutils_find_last` from `src/find.c`: 0 for NULL or empty
strings, otherwise `rcutils_find_lastn` over the whole string. -/
def rcutils_find_last (str : Option (List Char)) (delimiter : Char) : Nat :=
  match str with
  | none => 0
  | some s =>
    if s.length = 0 then 0 else rcutils_find_lastn (some s) delimiter s.length

theorem findFirstIndex_eq_none {d : Char} :
    ∀ {l : List Char}, findFirstIndex d l = none →
      ∀ j < l.length, l.get? j ≠ some d := by
  intro l
  induction l with
  | nil => intro _ j hj; simp at hj
  | cons c rest ih =>
    intro h j hj
    rw [findFirstIndex] at h
    by_cases hc : c = d
    · simp [hc] at h
    · simp [hc] at h
      cases j with
      | zero => simpa using fun hcd => hc hcd
      | succ j =>
        simp only [List.get?]
        exact ih h j (by simpa using hj)

theorem findFirstIndex_eq_some {d : Char} :
    ∀ {l : List Char} {r : Nat}, findFirstIndex d l = some r →
      r < l.length ∧ l.get? r = some d ∧ ∀ j < r, l.get? j ≠ some d := by
  intro l
  induction l with
  | nil => intro r h; simp [findFirstIndex] at h
  | cons c rest ih =>
    intro r h
    rw [findFirstIndex] at h
    by_cases hc : c = d
    · simp [hc] at h
      subst h
      refine ⟨by simp, by simpa using hc, ?_⟩
      intro j hj; omega
    · simp [hc] at h
      obtain ⟨r0, hr0, hrr⟩ := h
      obtain ⟨h1, h2, h3⟩ := ih hr0
      subst hrr
      refine ⟨by simpa using h1, by simpa using h2, ?_⟩
      intro j hj
      cases j with
      | zero => simpa using fun hcd => hc hcd
      | succ j =>
        simp only [List.get?]
        exact h3 j (by omega)

theorem findLastIndex_eq_none {d : Char} :
    ∀ {l : List Char}, findLastIndex d l = none →
      ∀ j < l.length, l.get? j ≠ some d := by
  intro l
  induction l with
  | nil => intro _ j hj; simp at hj
  | cons c rest ih =>
    intro h j hj
    rw [findLastIndex] at h
    cases hrest : findLastIndex d rest with
    | some r => rw [hrest] at h; simp at h
    | none =>
      rw [hrest] at h
      by_cases hc : c = d
      · simp [hc] at h
      · cases j with
        | zero => simpa using fun hcd => hc hcd
        | succ j =>
          simp only [List.get?]
          exact ih hrest j (by simpa using hj)

theorem findLastIndex_eq_some {d : Char} :
    ∀ {l : List Char} {r : Nat}, findLastIndex d l = some r →
      r < l.length ∧ l.get? r = some d ∧
        ∀ j, r < j → j < l.length → l.get? j ≠ some d := by
  intro l
  induction l with
  | nil => intro r h; simp [findLastIndex] at h
  | cons c rest ih =>
    intro r h
    rw [findLastIndex] at h
    cases hrest : findLastIndex d rest with
    | some r0 =>
      rw [hrest] at h
      simp at h
      obtain ⟨h1, h2, h3⟩ := ih hrest
      subst h
      refine ⟨by simpa using h1, by simpa using h2, ?_⟩
      intro j hj hjl
      cases j with
      | zero => omega
      | succ j =>
        simp only [List.get?]
        exact h3 j (by omega) (by simpa using hjl)
    | none =>
      rw [hrest] at h
      by_cases hc : c = d
      · simp [hc] at h
        subst h
        refine ⟨by simp, by simpa using hc, ?_⟩
        intro j hj hjl
        cases j with
        | zero => omega
        | succ j =>
          simp only [List.get?]
          exact findLastIndex_eq_none hrest j (by simpa using hjl)
      · simp [hc] at h

/-- A logger name: the character sequence of a non-NULL C string. -/
abbrev LoggerName := List Char

/-- The severity registry: explicit per-logger thresholds, keyed by full
logger name.  Models the name-to-threshold map held by the logging core. -/
abbrev Registry := List (LoggerName × Nat)

/-- Lookup of the explicit entry for exactly `name`, if any. -/
def lookupThreshold : Registry → LoggerName → Option Nat
  | [], _ => none
  | p :: rest, name =>
    if p.1 = name then some p.2 else lookupThreshold rest name

/-- Modelled from the spec: `rcutils_logging_set_logger_severity_threshold`
(its body, in `logging.c`, is not among the provided sources; `logging.h`
declares it and spec section 4.1 describes it).  Inserts or overwrites the
explicit threshold for `name`. -/
def rcutils_logging_set_logger_severity_threshold
    (reg : Registry) (name : LoggerName) (severity : Nat) : Registry :=
  match reg with
  | [] => [(name, severity)]
  | p :: rest =>
    if p.1 = name then (name, severity) :: rest
    else p :: rcutils_logging_set_logger_severity_threshold rest name severity

/-- Modelled from the spec: `rcutils_logging_get_logger_severity_threshold`
(body in `logging.c`, not among the provided sources).  Returns the explicit
threshold of exactly `name`, or `RCUTILS_LOG_SEVERITY_UNSET` when no
explicit entry exists. -/
def rcutils_logging_get_logger_severity_threshold
    (reg : Registry) (name : LoggerName) : Nat :=
  (lookupThreshold reg name).getD RCUTILS_LOG_SEVERITY_UNSET

/-- Modelled from the spec: `rcutils_logging_get_logger_severity_thresholdn`
(body in `logging.c`, not among the provided sources).  Same lookup keyed by
the first `name_length` characters of `name`. -/
def rcutils_logging_get_logger_severity_thresholdn
    (reg : Registry) (name : LoggerName) (name_length : Nat) : Nat :=
  rcutils_logging_get_logger_severity_threshold reg (name.take name_length)

/-- Modelled from the spec: the resolution loop of
`rcutils_logging_get_logger_effective_threshold` (body in `logging.c`, not
among the provided sources; spec section 4.1).  At substring length `L`:
return the explicit threshold of the first `L` characters when one is set;
otherwise truncate at the last `.` (via the source-embedded
`rcutils_find_lastn`) and repeat; when no `.` remains, return the default.
`fuel` only bounds the recursion; any `fuel > L` gives the loop's value. -/
def effectiveLoop (reg : Registry) (default : Nat) (name : LoggerName) :
    Nat → Nat → Nat
  | _, 0 => default
  | L, fuel + 1 =>
    let severity := rcutils_logging_get_logger_severity_thresholdn reg name L
    if severity ≠ RCUTILS_LOG_SEVERITY_UNSET then severity
    else
      let index_last_separator := rcutils_find_lastn (some name) '.' L
      if index_last_separator < L then
        effectiveLoop reg default name index_last_separator fuel
      else default

/-- Modelled from the spec: `rcutils_logging_get_logger_effective_threshold`
(body in `logging.c`, not among the provided sources).  Runs the resolution
loop starting from the full name length. -/
def rcutils_logging_get_logger_effective_threshold
    (reg : Registry) (default : Nat) (name : LoggerName) : Nat :=
  effectiveLoop reg default name name.length (name.length + 1)

/-- The chain of ancestor prefix lengths of `name` below substring length
`L`, produced by repeated truncation at the last `.` — the claim's notion
of the dot-separated ancestors, nearest first.  `fuel > L` is enough fuel. -/
def ancestorLengths (name : LoggerName) : Nat → Nat → List Nat
  | _, 0 => []
  | L, fuel + 1 =>
    let r := rcutils_find_lastn (some name) '.' L
    if r < L then r :: ancestorLengths name r fuel else []

/-- Candidate prefix lengths consulted during resolution: the logger itself
first, then its ancestors from nearest to farthest. -/
def candidateLengths (name : LoggerName) : List Nat :=
  name.length :: ancestorLengths name name.length (name.length + 1)

/-- First explicit registry entry along a list of prefix lengths: the
specification-side reading of "the nearest ancestor that has an explicit
entry". -/
def firstExplicit (reg : Registry) (name : LoggerName) : List Nat → Option Nat
  | [] => none
  | L :: rest =>
    match lookupThreshold reg (name.take L) with
    | some v => some v
    | none => firstExplicit reg name rest

/-- Modelled from the spec: `rcutils_logging_is_enabled_for` (body in
`logging.c`, not among the provided sources; spec section 4.1).  A NULL
logger name resolves directly to the global default threshold; a named
logger resolves to its effective threshold; the call is enabled when the
severity is at least that threshold. -/
def rcutils_logging_is_enabled_for (reg : Registry) (default : Nat)
    (name : Option LoggerName) (severity : Nat) : Bool :=
  let severity_threshold :=
    match name with
    | none => default
    | some n => rcutils_logging_get_logger_effective_threshold reg default n
  decide (severity_threshold ≤ severity)

/-- A well-formed registry never stores `UNSET` as an explicit value
(spec section 3, SeverityRegistry invariant). -/
def RegistryWF (reg : Registry) : Prop :=
  ∀ p ∈ reg, p.2 ≠ RCUTILS_LOG_SEVERITY_UNSET

instance (reg : Registry) : Decidable (RegistryWF reg) := by
  unfold RegistryWF; infer_instance

theorem lookupThreshold_mem {reg : Registry} {name : LoggerName} {v : Nat}
    (h : lookupThreshold reg name = some v) : (name, v) ∈ reg := by
  induction reg with
  | nil => simp [lookupThreshold] at h
  | cons p rest ih =>
    rw [lookupThreshold] at h
    by_cases hp : p.1 = name
    · simp [hp] at h
      cases p with
      | mk k w =>
        simp only at hp h
        subst hp; subst h
        exact List.mem_cons_self _ _
    · simp [hp] at h
      exact List.mem_cons_of_mem _ (ih h)

theorem effectiveLoop_eq_firstExplicit (reg : Registry) (default : Nat)
    (name : LoggerName) (hwf : RegistryWF reg) :
    ∀ (fuel L : Nat), L < fuel →
      effectiveLoop reg default name L fuel =
        (firstExplicit reg name (L :: ancestorLengths name L fuel)).getD default := by
  intro fuel
  induction fuel with
  | zero => intro L hL; omega
  | succ fuel ih =>
    intro L hL
    rw [effectiveLoop, firstExplicit]
    cases hlk : lookupThreshold reg (name.take L) with
    | some v =>
      have hv : v ≠ RCUTILS_LOG_SEVERITY_UNSET :=
        hwf _ (lookupThreshold_mem hlk)
      simp [rcutils_logging_get_logger_severity_thresholdn,
        rcutils_logging_get_logger_severity_threshold, hlk, hv]
    | none =>
      simp only [rcutils_logging_get_logger_severity_thresholdn,
        rcutils_logging_get_logger_severity_threshold, hlk, Option.getD_none,
        ne_eq, not_true_eq_false, if_false]
      rw [ancestorLengths]
      by_cases hr : rcutils_find_lastn (some name) '.' L < L
      · simp only [hr, if_true]
        exact ih _ (by omega)
      · simp [hr, firstExplicit]

/-- Modelled from the spec: the ONCE directive's gating step
(`RCUTILS_LOG_CONDITION_ONCE` in `logging_macros.h`, not among the provided
sources; spec section 4.3).  Input is the call site's `has_fired_once`
flag; output is (fires?, new flag), the flag being set on fire. -/
def onceStep (has_fired_once : Bool) : Bool × Bool :=
  let fire := !has_fired_once
  (fire, if fire then true else has_fired_once)

/-- Fire decisions of `n` successive attempts at an ONCE call site whose
`has_fired_once` flag starts at the given value. -/
def onceAttempts : Nat → Bool → List Bool
  | 0, _ => []
  | n + 1, has_fired_once =>
    (onceStep has_fired_once).1 :: onceAttempts n (onceStep has_fired_once).2

/-- Modelled from the spec: the SKIPFIRST directive's gating step
(`RCUTILS_LOG_CONDITION_SKIPFIRST` in `logging_macros.h`, not among the
provided sources; spec section 4.3).  Fires when this is not the first
attempt; the flag is set unconditionally. -/
def skipfirstStep (has_fired_once : Bool) : Bool × Bool :=
  (has_fired_once, true)

/-- Fire decisions of `n` successive attempts at a SKIPFIRST call site. -/
def skipfirstAttempts : Nat → Bool → List Bool
  | 0, _ => []
  | n + 1, has_fired_once =>
    (skipfirstStep has_fired_once).1 ::
      skipfirstAttempts n (skipfirstStep has_fired_once).2

/-- Modelled from the spec: the THROTTLE directive's gating step
(`RCUTILS_LOG_CONDITION_THROTTLE` in `logging_macros.h`, not among the
provided sources; spec section 4.3).  Fires when `last_fire_time` is unset
or at least `duration` has elapsed; records the fire time only on fire. -/
def throttleStep (duration : Int) (last_fire_time : Option Int) (now : Int) :
    Bool × Option Int :=
  let fire :=
    match last_fire_time with
    | none => true
    | some t => decide (duration ≤ now - t)
  (fire, if fire then some now else last_fire_time)

/-- Fire decisions of successive attempts at a THROTTLE call site, one
attempt per timestamp in the list, starting from the given state. -/
def throttleAttempts (duration : Int) :
    List Int → Option Int → List Bool
  | [], _ => []
  | now :: later, last_fire_time =>
    (throttleStep duration last_fire_time now).1 ::
      throttleAttempts duration later (throttleStep duration last_fire_time now).2

/-- Modelled from the spec: the SKIPFIRST_THROTTLE directive's gating step
(spec section 4.3): the SKIPFIRST gate composed with the THROTTLE gate,
with both state mutations.  Returns (fires?, new flag, new last fire). -/
def skipfirstThrottleStep (duration : Int) (has_fired_once : Bool)
    (last_fire_time : Option Int) (now : Int) : Bool × Bool × Option Int :=
  let gate := (throttleStep duration last_fire_time now).1
  let fire := has_fired_once && gate
  (fire, true, if fire then some now else last_fire_time)

/-- Fire decisions of successive attempts at a SKIPFIRST_THROTTLE call
site, one attempt per timestamp. -/
def skipfirstThrottleAttempts (duration : Int) :
    List Int → Bool → Option Int → List Bool
  | [], _, _ => []
  | now :: later, has_fired_once, last_fire_time =>
    (skipfirstThrottleStep duration has_fired_once last_fire_time now).1 ::
      skipfirstThrottleAttempts duration later
        (skipfirstThrottleStep duration has_fired_once last_fire_time now).2.1
        (skipfirstThrottleStep duration has_fired_once last_fire_time now).2.2

/-- The two standard output streams targeted by the default handler. -/
inductive LogStream
  | standardOut
  | standardErr
deriving DecidableEq

/-- Severity names, as printed by the default handler. -/
def severityName : Nat → List Char
  | 0 => ['D', 'E', 'B', 'U', 'G']
  | 1 => ['I', 'N', 'F', 'O']
  | 2 => ['W', 'A', 'R', 'N']
  | 3 => ['E', 'R', 'R', 'O', 'R']
  | 4 => ['F', 'A', 'T', 'A', 'L']
  | _ => ['U', 'N', 'K', 'N', 'O', 'W', 'N']

/-- Modelled from the spec: `rcutils_logging_console_output_handler` (body
in `logging.c`, not among the provided sources; `logging.h` lines 323-351
and spec section 4.2).  DEBUG and INFO records go to the standard output
stream, higher severities to the standard error stream; the severity and
logger name are prepended to the message and the call-site location, when
present, is appended. -/
def rcutils_logging_console_output_handler
    (location : Option (List Char × List Char × Nat)) (severity : Nat)
    (name : List Char) (message : List Char) : LogStream × List Char :=
  let stream :=
    if severity ≤ RCUTILS_LOG_SEVERITY_INFO then LogStream.standardOut
    else LogStream.standardErr
  let headPart :=
    '[' :: severityName severity ++ ']' :: ' ' :: '[' :: name ++ [']', ':', ' ']
  let tailPart :=
    match location with
    | none => []
    | some loc =>
      ' ' :: '(' :: loc.1 ++ ':' :: loc.2.1 ++ ':' :: (Nat.repr loc.2.2).data ++ [')']
  (stream, headPart ++ message ++ tailPart)

/-- The pluggable allocator capability of `rcutils/allocator.h`, modelled
by which of its four function members are non-NULL.  The whole allocator
argument is `Option`-wrapped at call sites to model a NULL pointer. -/
structure Allocator where
  allocate : Bool
  deallocate : Bool
  reallocate : Bool
  zero_allocate : Bool
deriving DecidableEq

/-- Observable effects of one `rcutils_reallocf` call: the calls it makes
through the allocator and any diagnostic written to the error stream. -/
inductive AllocEvent
  | reallocCall (pointer : Nat) (size : Nat)
  | deallocCall (pointer : Nat)
  | diagnosticWrite
deriving DecidableEq

/-- Embedding of `rcutils_allocator_is_valid` from `src/allocator.c`:
false when the allocator pointer or any of the four function members is
NULL, true otherwise. -/
def rcutils_allocator_is_valid (allocator : Option Allocator) : Bool :=
  match allocator with
  | none => false
  | some a =>
    if !a.allocate || !a.deallocate || !a.zero_allocate || !a.reallocate then
      false
    else true

/-- Embedding of `rcutils_reallocf` from `src/allocator.c`.  `pointer` is
the incoming allocation, `reallocResult` the value the allocator's
reallocate member would return (`none` modelling NULL).  The result pairs
the returned pointer with the chronological list of observable effects.
The C checks only the allocator pointer and its `reallocate` and
`deallocate` members; on failure of that check it writes a diagnostic to
the error stream and returns NULL without touching the allocator.  On a
NULL reallocate result it deallocates `pointer`. -/
def rcutils_reallocf (pointer : Nat) (size : Nat)
    (allocator : Option Allocator) (reallocResult : Option Nat) :
    Option Nat × List AllocEvent :=
  match allocator with
  | none => (none, [AllocEvent.diagnosticWrite])
  | some a =>
    if !a.reallocate || !a.deallocate then
      (none, [AllocEvent.diagnosticWrite])
    else
      match reallocResult with
      | none =>
        (none, [AllocEvent.reallocCall pointer size, AllocEvent.deallocCall pointer])
      | some new_pointer =>
        (some new_pointer, [AllocEvent.reallocCall pointer size])

/-- The statement of the claim that every dynamic allocation is preceded by
a full four-member validity check: whenever the allocator capability is
invalid, `rcutils_reallocf` yields no result and performs no allocator
call, only a diagnostic write. -/
def reallocfValidatesAllFour : Prop :=
  ∀ (allocator : Option Allocator) (p sz : Nat) (res : Option Nat),
    rcutils_allocator_is_valid allocator = false →
      (rcutils_reallocf p sz allocator res).1 = none ∧
        ∀ e ∈ (rcutils_reallocf p sz allocator res).2,
          e = AllocEvent.diagnosticWrite

theorem get?_take_of_lt {α : Type} :
    ∀ (l : List α) (n j : Nat), j < n → (l.take n).get? j = l.get? j := by
  intro l
  induction l with
  | nil => intro n j _; simp
  | cons c rest ih =>
    intro n j hj
    cases n with
    | zero => omega
    | succ n =>
      cases j with
      | zero => simp
      | succ j => simpa using ih n j (by omega)

theorem onceAttempts_fired (n : Nat) :
    onceAttempts n true = List.replicate n false := by
  induction n with
  | zero => rfl
  | succ n ih => rw [onceAttempts]; simp [onceStep, ih, List.replicate_succ]

theorem skipfirstAttempts_fired (n : Nat) :
    skipfirstAttempts n true = List.replicate n true := by
  induction n with
  | zero => rfl
  | succ n ih => rw [skipfirstAttempts]; simp [skipfirstStep, ih, List.replicate_succ]

theorem count_true_replicate_false (n : Nat) :
    (List.replicate n false).count true = 0 := by
  induction n with
  | zero => rfl
  | succ n ih => rw [List.replicate, List.count_cons]; simp [ih]

theorem count_true_replicate_true (n : Nat) :
    (List.replicate n true).count true = n := by
  induction n with
  | zero => rfl
  | succ n ih => rw [List.replicate, List.count_cons]; simp [ih]

theorem skipfirstThrottleAttempts_fired (duration : Int) :
    ∀ (ts : List Int) (last : Option Int),
      skipfirstThrottleAttempts duration ts true last =
        throttleAttempts duration ts last := by
  intro ts
  induction ts with
  | nil => intro last; rfl
  | cons now later ih =>
    intro last
    rw [skipfirstThrottleAttempts, throttleAttempts]
    have hstep :
        skipfirstThrottleStep duration true last now =
          ((throttleStep duration last now).1, true,
            (throttleStep duration last now).2) := by
      simp only [skipfirstThrottleStep, throttleStep]
      cases last <;> simp
    rw [hstep, ih]

theorem lookupThreshold_set_self (reg : Registry) (name : LoggerName)
    (severity : Nat) :
    lookupThreshold
      (rcutils_logging_set_logger_severity_threshold reg name severity) name =
      some severity := by
  induction reg with
  | nil => simp [rcutils_logging_set_logger_severity_threshold, lookupThreshold]
  | cons p rest ih =>
    rw [rcutils_logging_set_logger_severity_threshold]
    by_cases hp : p.1 = name
    · simp [hp, lookupThreshold]
    · simp [hp, lookupThreshold, ih]

theorem lookupThreshold_not_mem (reg : Registry) (name : LoggerName)
    (h : ∀ p ∈ reg, p.1 ≠ name) : lookupThreshold reg name = none := by
  induction reg with
  | nil => rfl
  | cons p rest ih =>
    rw [lookupThreshold]
    have hp : p.1 ≠ name := h p (List.mem_cons_self _ _)
    simp only [hp, if_false]
    exact ih fun q hq => h q (List.mem_cons_of_mem _ hq)

/-- C9: for a non-NULL string and length `L` within bounds, `rcutils_findn`
returns the smallest index `i < L` holding the delimiter (or `L` when there
is none) and `rcutils_find_lastn` the largest such index (or `L`); both
return 0 for a NULL string, `rcutils_find` and `rcutils_find_last`
additionally return 0 for the empty string, and a delimiter found at index
0 also yields 0, so a 0 result does not distinguish the cases. -/
theorem find_functions_spec (s : List Char) (d : Char) (L : Nat)
    (hL : L ≤ s.length) :
    (rcutils_findn (some s) d L ≤ L ∧
      (rcutils_findn (some s) d L < L →
        s.get? (rcutils_findn (some s) d L) = some d ∧
          ∀ j < rcutils_findn (some s) d L, s.get? j ≠ some d) ∧
      (rcutils_findn (some s) d L = L → ∀ j < L, s.get? j ≠ some d)) ∧
    (rcutils_find_lastn (some s) d L ≤ L ∧
      (rcutils_find_lastn (some s) d L < L →
        s.get? (rcutils_find_lastn (some s) d L) = some d ∧
          ∀ j, rcutils_find_lastn (some s) d L < j → j < L →
            s.get? j ≠ some d) ∧
      (rcutils_find_lastn (some s) d L = L → ∀ j < L, s.get? j ≠ some d)) ∧
    (rcutils_findn none d L = 0 ∧ rcutils_find_lastn none d L = 0 ∧
      rcutils_find none d = 0 ∧ rcutils_find_last none d = 0 ∧
      rcutils_find (some []) d = 0 ∧ rcutils_find_last (some []) d = 0 ∧
      rcutils_find (some [d]) d = 0) := by
  have ht : (s.take L).length = L := by
    rw [List.length_take]; omega
  refine ⟨?_, ?_, ?_⟩
  · cases hf : findFirstIndex d (s.take L) with
    | none =>
      have hv : rcutils_findn (some s) d L = L := by
        simp [rcutils_findn, hf]
      rw [hv]
      refine ⟨Nat.le_refl _, fun hlt => absurd hlt (lt_irrefl _), fun _ j hj => ?_⟩
      have hn := findFirstIndex_eq_none hf j (by omega)
      rwa [get?_take_of_lt s L j hj] at hn
    | some r =>
      obtain ⟨h1, h2, h3⟩ := findFirstIndex_eq_some hf
      rw [ht] at h1
      have hv : rcutils_findn (some s) d L = r := by
        simp [rcutils_findn, hf]
      rw [hv]
      refine ⟨Nat.le_of_lt h1, fun _ => ⟨?_, ?_⟩,
        fun heq => absurd heq (Nat.ne_of_lt h1)⟩
      · rwa [get?_take_of_lt s L r h1] at h2
      · intro j hj
        have hn := h3 j hj
        rwa [get?_take_of_lt s L j (by omega)] at hn
  · cases hf : findLastIndex d (s.take L) with
    | none =>
      have hv : rcutils_find_lastn (some s) d L = L := by
        simp [rcutils_find_lastn, hf]
      rw [hv]
      refine ⟨Nat.le_refl _, fun hlt => absurd hlt (lt_irrefl _), fun _ j hj => ?_⟩
      have hn := findLastIndex_eq_none hf j (by omega)
      rwa [get?_take_of_lt s L j hj] at hn
    | some r =>
      obtain ⟨h1, h2, h3⟩ := findLastIndex_eq_some hf
      rw [ht] at h1
      have hv : rcutils_find_lastn (some s) d L = r := by
        simp [rcutils_find_lastn, hf]
      rw [hv]
      refine ⟨Nat.le_of_lt h1, fun _ => ⟨?_, ?_⟩,
        fun heq => absurd heq (Nat.ne_of_lt h1)⟩
      · rwa [get?_take_of_lt s L r h1] at h2
      · intro j hjr hjL
        have hn := h3 j hjr (by omega)
        rwa [get?_take_of_lt s L j hjL] at hn
  · refine ⟨rfl, rfl, rfl, rfl, by simp [rcutils_find], by simp [rcutils_find_last], ?_⟩
    simp [rcutils_find, rcutils_findn, findFirstIndex]

theorem find_functions_spec_witness :
    ((3 : Nat) ≤ (['a', 'b', 'a'] : List Char).length) ∧
      rcutils_findn (some ['a', 'b', 'a']) 'a' 3 ≤ 3 :=
  ⟨by decide, (find_functions_spec ['a', 'b', 'a'] 'a' 3 (by decide)).1.1⟩

/-- C1: for a registry that never stores UNSET as an explicit value, the
effective threshold of a logger is its own explicit threshold when one
exists, otherwise the explicit threshold of the nearest dot-separated
ancestor (repeated truncation at the last dot) that has one, and the
global default when no prefix in that chain has an explicit entry. -/
theorem effective_threshold_spec (reg : Registry) (default : Nat)
    (name : LoggerName) (hwf : RegistryWF reg) :
    rcutils_logging_get_logger_effective_threshold reg default name =
      (firstExplicit reg name (candidateLengths name)).getD default ∧
    (∀ v, lookupThreshold reg name = some v →
      rcutils_logging_get_logger_effective_threshold reg default name = v) ∧
    (firstExplicit reg name (candidateLengths name) = none →
      rcutils_logging_get_logger_effective_threshold reg default name =
        default) := by
  have hmain :
      rcutils_logging_get_logger_effective_threshold reg default name =
        (firstExplicit reg name (candidateLengths name)).getD default := by
    rw [rcutils_logging_get_logger_effective_threshold, candidateLengths]
    exact effectiveLoop_eq_firstExplicit reg default name hwf _ _ (by omega)
  refine ⟨hmain, ?_, ?_⟩
  · intro v hv
    rw [hmain, candidateLengths, firstExplicit, List.take_length, hv]
    rfl
  · intro hnone
    rw [hmain, hnone, Option.getD_none]

theorem effective_threshold_spec_witness :
    RegistryWF [((['a'] : LoggerName), 2)] ∧
      rcutils_logging_get_logger_effective_threshold [((['a'] : LoggerName), 2)]
          1 ['a', '.', 'b', '.', 'c'] =
        (firstExplicit [((['a'] : LoggerName), 2)] ['a', '.', 'b', '.', 'c']
            (candidateLengths ['a', '.', 'b', '.', 'c'])).getD 1 :=
  ⟨by decide,
    (effective_threshold_spec [((['a'] : LoggerName), 2)] 1
        ['a', '.', 'b', '.', 'c'] (by decide)).1⟩

/-- C2: at an ONCE call site, across `N ≥ 1` attempts starting from a fresh
state, exactly one attempt fires and it is the first; the firing attempt
sets `has_fired_once`, so no later attempt fires. -/
theorem once_fires_exactly_first (N : Nat) (h : 1 ≤ N) :
    onceAttempts N false = true :: List.replicate (N - 1) false ∧
    (onceAttempts N false).count true = 1 ∧
    (onceStep false).2 = true := by
  obtain ⟨k, rfl⟩ : ∃ k, N = k + 1 := ⟨N - 1, by omega⟩
  have hrun : onceAttempts (k + 1) false = true :: List.replicate k false := by
    rw [onceAttempts]
    simp [onceStep, onceAttempts_fired]
  refine ⟨by simpa using hrun, ?_, rfl⟩
  rw [hrun, List.count_cons]
  simp [count_true_replicate_false]

theorem once_fires_exactly_first_witness :
    (1 ≤ 3) ∧ onceAttempts 3 false = true :: List.replicate 2 false :=
  ⟨by decide, (once_fires_exactly_first 3 (by decide)).1⟩

/-- C3: at a SKIPFIRST call site, across `N ≥ 1` attempts starting from a
fresh state, exactly `N - 1` attempts fire, namely every attempt but the
first (so none for `N = 1`), and the first attempt sets `has_fired_once`
even though it does not fire. -/
theorem skipfirst_fires_all_but_first (N : Nat) (h : 1 ≤ N) :
    skipfirstAttempts N false = false :: List.replicate (N - 1) true ∧
    (skipfirstAttempts N false).count true = N - 1 ∧
    (skipfirstStep false).1 = false ∧
    (skipfirstStep false).2 = true := by
  obtain ⟨k, rfl⟩ : ∃ k, N = k + 1 := ⟨N - 1, by omega⟩
  have hrun :
      skipfirstAttempts (k + 1) false = false :: List.replicate k true := by
    rw [skipfirstAttempts]
    simp [skipfirstStep, skipfirstAttempts_fired]
  refine ⟨by simpa using hrun, ?_, rfl, rfl⟩
  rw [hrun, List.count_cons]
  simp [count_true_replicate_true]

theorem skipfirst_fires_all_but_first_witness :
    (1 ≤ 1) ∧ skipfirstAttempts 1 false = false :: List.replicate 0 true :=
  ⟨by decide, (skipfirst_fires_all_but_first 1 (by decide)).1⟩

/-- C4: a THROTTLE call site always fires on its first-ever attempt (no
prior fire time), and with a recorded last fire at `l` an attempt at `t`
fires exactly when `t - l ≥ duration`; a SKIPFIRST_THROTTLE call site
suppresses its first attempt unconditionally and thereafter behaves
exactly like a fresh THROTTLE site. -/
theorem throttle_and_skipfirst_throttle_spec (D t l : Int) (ts : List Int) :
    throttleAttempts D (t :: ts) none =
      true :: throttleAttempts D ts (some t) ∧
    (D ≤ t - l →
      throttleAttempts D (t :: ts) (some l) =
        true :: throttleAttempts D ts (some t)) ∧
    (t - l < D →
      throttleAttempts D (t :: ts) (some l) =
        false :: throttleAttempts D ts (some l)) ∧
    skipfirstThrottleAttempts D (t :: ts) false none =
      false :: throttleAttempts D ts none := by
  refine ⟨?_, ?_, ?_, ?_⟩
  · rw [throttleAttempts]
    simp [throttleStep]
  · intro hd
    rw [throttleAttempts]
    simp [throttleStep, hd]
  · intro hd
    rw [throttleAttempts]
    simp only [throttleStep]
    have hnot : ¬ D ≤ t - l := by omega
    simp [hnot]
  · rw [skipfirstThrottleAttempts]
    have hstep :
        skipfirstThrottleStep D false none t = (false, true, none) := by
      simp [skipfirstThrottleStep, throttleStep]
    rw [hstep]
    simp [skipfirstThrottleAttempts_fired]

theorem throttle_and_skipfirst_throttle_spec_witness :
    ((3 : Int) ≤ 5 - 2) ∧
      throttleAttempts 3 ([5] : List Int) (some 2) =
        true :: throttleAttempts 3 ([] : List Int) (some 5) :=
  ⟨by decide, (throttle_and_skipfirst_throttle_spec 3 5 2 []).2.1 (by decide)⟩

/-- C5: with the registry and default fixed, enablement is monotone in the
severity, and a call is enabled exactly when the severity is at least the
effective threshold; a NULL logger name resolves directly to the global
default. -/
theorem is_enabled_for_monotone (reg : Registry) (default : Nat)
    (name : Option LoggerName) (s1 s2 : Nat) (h : s1 ≤ s2) :
    (rcutils_logging_is_enabled_for reg default name s1 = true →
      rcutils_logging_is_enabled_for reg default name s2 = true) ∧
    (∀ (n : LoggerName) (s : Nat),
      rcutils_logging_is_enabled_for reg default (some n) s = true ↔
        rcutils_logging_get_logger_effective_threshold reg default n ≤ s) ∧
    (∀ s : Nat, rcutils_logging_is_enabled_for reg default none s = true ↔
      default ≤ s) := by
  refine ⟨?_, ?_, ?_⟩
  · cases name with
    | none =>
      simp only [rcutils_logging_is_enabled_for, decide_eq_true_eq]
      omega
    | some n =>
      simp only [rcutils_logging_is_enabled_for, decide_eq_true_eq]
      omega
  · intro n s
    simp [rcutils_logging_is_enabled_for]
  · intro s
    simp [rcutils_logging_is_enabled_for]

theorem is_enabled_for_monotone_witness :
    (2 ≤ 3) ∧
      (rcutils_logging_is_enabled_for [] 2 none 2 = true →
        rcutils_logging_is_enabled_for [] 2 none 3 = true) :=
  ⟨by decide, (is_enabled_for_monotone [] 2 none 2 3 (by decide)).1⟩

/-- C6: setting a logger's threshold to a real severity and reading it back
returns that severity, and reading the threshold of a name with no explicit
entry returns `RCUTILS_LOG_SEVERITY_UNSET`. -/
theorem set_get_threshold_roundtrip (reg : Registry) (name : LoggerName)
    (S : Nat) (_hS : S ≤ RCUTILS_LOG_SEVERITY_FATAL) :
    rcutils_logging_get_logger_severity_threshold
        (rcutils_logging_set_logger_severity_threshold reg name S) name = S ∧
    (∀ (reg2 : Registry) (name2 : LoggerName),
      (∀ p ∈ reg2, p.1 ≠ name2) →
      rcutils_logging_get_logger_severity_threshold reg2 name2 =
        RCUTILS_LOG_SEVERITY_UNSET) := by
  constructor
  · rw [rcutils_logging_get_logger_severity_threshold,
      lookupThreshold_set_self]
    rfl
  · intro reg2 name2 hnone
    rw [rcutils_logging_get_logger_severity_threshold,
      lookupThreshold_not_mem reg2 name2 hnone]
    rfl

theorem set_get_threshold_roundtrip_witness :
    (2 ≤ RCUTILS_LOG_SEVERITY_FATAL) ∧
      rcutils_logging_get_logger_severity_threshold
        (rcutils_logging_set_logger_severity_threshold []
          (['a'] : LoggerName) 2) ['a'] = 2 :=
  ⟨by decide,
    (set_get_threshold_roundtrip [] ['a'] 2 (by decide)).1⟩

/-- C7 counterexample: it is not true that every dynamic allocation is
preceded by a check that all four allocator operations are non-null.  An
allocator whose `allocate` and `zero_allocate` members are NULL fails
`rcutils_allocator_is_valid`, yet `rcutils_reallocf` — which checks only
`reallocate` and `deallocate` — still calls through it and returns the
reallocated pointer. -/
theorem reallocf_validates_all_four_false : ¬ reallocfValidatesAllFour := by
  intro h
  have hbad :=
    h (some ⟨false, true, true, false⟩) 7 16 (some 42) (by decide)
  have hres :
      (rcutils_reallocf 7 16 (some ⟨false, true, true, false⟩) (some 42)).1 =
        some 42 := by decide
  rw [hres] at hbad
  exact Option.noConfusion hbad.1

/-- C7 amended: `rcutils_allocator_is_valid` checks that the allocator and
all four of its operations are non-null; `rcutils_reallocf` itself guards
only the members it uses — the allocator pointer, `reallocate` and
`deallocate` — and when that narrower check fails it writes a diagnostic
to the error stream, returns NULL, and performs no allocator call. -/
theorem allocator_validity_checks (a : Allocator) (p sz : Nat)
    (res : Option Nat) :
    rcutils_allocator_is_valid none = false ∧
    (rcutils_allocator_is_valid (some a) = true ↔
      a.allocate = true ∧ a.deallocate = true ∧ a.reallocate = true ∧
        a.zero_allocate = true) ∧
    (a.reallocate = false ∨ a.deallocate = false →
      rcutils_reallocf p sz (some a) res =
        (none, [AllocEvent.diagnosticWrite])) ∧
    rcutils_reallocf p sz none res = (none, [AllocEvent.diagnosticWrite]) := by
  refine ⟨rfl, ?_, ?_, rfl⟩
  · cases a with
    | mk al de re ze =>
      cases al <;> cases de <;> cases re <;> cases ze <;>
        simp [rcutils_allocator_is_valid]
  · intro hcase
    rcases hcase with hre | hde
    · simp [rcutils_reallocf, hre]
    · simp [rcutils_reallocf, hde]

theorem allocator_validity_checks_witness :
    ((⟨true, true, false, true⟩ : Allocator).reallocate = false ∨
      (⟨true, true, false, true⟩ : Allocator).deallocate = false) ∧
      rcutils_reallocf 1 2 (some ⟨true, true, false, true⟩) (some 9) =
        (none, [AllocEvent.diagnosticWrite]) :=
  ⟨by decide,
    (allocator_validity_checks ⟨true, true, false, true⟩ 1 2 (some 9)).2.2.1
      (by decide)⟩

/-- C8: the default console output handler writes DEBUG and INFO records to
the standard output stream and WARN, ERROR and FATAL records to the
standard error stream, and in every case the formatted output contains the
message text verbatim. -/
theorem console_output_handler_spec
    (location : Option (List Char × List Char × Nat)) (severity : Nat)
    (name message : List Char) :
    (severity = RCUTILS_LOG_SEVERITY_DEBUG ∨
        severity = RCUTILS_LOG_SEVERITY_INFO →
      (rcutils_logging_console_output_handler location severity name
          message).1 = LogStream.standardOut) ∧
    (severity = RCUTILS_LOG_SEVERITY_WARN ∨
        severity = RCUTILS_LOG_SEVERITY_ERROR ∨
        severity = RCUTILS_LOG_SEVERITY_FATAL →
      (rcutils_logging_console_output_handler location severity name
          message).1 = LogStream.standardErr) ∧
    (∃ u v : List Char,
      (rcutils_logging_console_output_handler location severity name
          message).2 = u ++ message ++ v) := by
  refine ⟨?_, ?_, ?_⟩
  · intro hcase
    rcases hcase with h0 | h1 <;> subst_vars <;>
      simp [rcutils_logging_console_output_handler, RCUTILS_LOG_SEVERITY_DEBUG,
        RCUTILS_LOG_SEVERITY_INFO]
  · intro hcase
    rcases hcase with h2 | h3 | h4 <;> subst_vars <;>
      simp [rcutils_logging_console_output_handler, RCUTILS_LOG_SEVERITY_WARN,
        RCUTILS_LOG_SEVERITY_ERROR, RCUTILS_LOG_SEVERITY_FATAL,
        RCUTILS_LOG_SEVERITY_INFO]
  · exact ⟨_, _, rfl⟩

theorem console_output_handler_spec_witness :
    ((0 : Nat) = RCUTILS_LOG_SEVERITY_DEBUG ∨
        (0 : Nat) = RCUTILS_LOG_SEVERITY_INFO) ∧
      (rcutils_logging_console_output_handler none 0 ['l'] ['h', 'i']).1 =
        LogStream.standardOut :=
  ⟨Or.inl rfl,
    (console_output_handler_spec none 0 ['l'] ['h', 'i']).1 (Or.inl rfl)⟩

/-- C10: when the allocator's `reallocate` and `deallocate` members are
non-null, a failed reallocation (NULL result) makes `rcutils_reallocf`
deallocate the original pointer before returning NULL, so the original
allocation is not leaked; a successful reallocation returns the new
pointer without any deallocation. -/
theorem reallocf_no_leak (a : Allocator) (p sz : Nat) (res : Option Nat)
    (hre : a.reallocate = true) (hde : a.deallocate = true) :
    (res = none →
      rcutils_reallocf p sz (some a) res =
        (none,
          [AllocEvent.reallocCall p sz, AllocEvent.deallocCall p])) ∧
    (∀ q : Nat, res = some q →
      rcutils_reallocf p sz (some a) res =
        (some q, [AllocEvent.reallocCall p sz])) := by
  constructor
  · intro hres
    subst hres
    simp [rcutils_reallocf, hre, hde]
  · intro q hres
    subst hres
    simp [rcutils_reallocf, hre, hde]

theorem reallocf_no_leak_witness :
    ((⟨true, true, true, true⟩ : Allocator).reallocate = true ∧
      (⟨true, true, true, true⟩ : Allocator).deallocate = true) ∧
      rcutils_reallocf 5 8 (some ⟨true, true, true, true⟩) none =
        (none, [AllocEvent.reallocCall 5 8, AllocEvent.deallocCall 5]) :=
  ⟨by decide,
    (reallocf_no_leak ⟨true, true, true, true⟩ 5 8 none (by decide)
        (by decide)).1 rfl⟩

end Rcutils
